import Mathlib

/-!
Shallow embedding of scripts/fetch-modules.js from the silverstripeltd/mods
repository: the module discovery pipeline implemented by the ModuleFetcher
class.  HTTP is modelled by an environment function giving the response each
URL receives on its k-th network request for that URL; the mutable fetcher
state (the 404 cache `notFoundCache`, the log of network requests issued, and
the backoff sleeps) is threaded explicitly.  Date parsing (the JS builtins
`new Date` / `Date.parse`) is a parameter `dp : String → Option Int`, with
`none` standing for an invalid date (NaN).  The 100ms inter-request throttle
in `rateLimitedFetch` and the `requestCount` logging counter depend on wall
clock time only and affect none of the modelled observables; they are elided.
-/

namespace Mods

/-- Configuration constant GITHUB_API_BASE from fetch-modules.js. -/
def GITHUB_API_BASE : String := "https://api.github.com"

/-- Configuration constant PACKAGIST_API_BASE from fetch-modules.js. -/
def PACKAGIST_API_BASE : String := "https://packagist.org"

/-- Configuration constant MAX_MODULES from fetch-modules.js. -/
def MAX_MODULES : Nat := 20

/-- JS truthiness for an optional string: `a || d` where null/undefined and
the empty string are falsy. -/
def jsOrStr : Option String → String → String
  | some s, d => if s = "" then d else s
  | none, d => d

/-- JS truthiness filter: keeps a string value only when it is truthy. -/
def jsTruthyStr : Option String → Option String
  | some s => if s = "" then none else some s
  | none => none

/-- JS `a || b` on two optional strings (empty string falsy). -/
def jsOrO : Option String → Option String → Option String
  | some s, b => if s = "" then b else some s
  | none, b => b

/-- Boolean prefix test on character lists (helper for `jsIncludes`). -/
def listPrefix : List Char → List Char → Bool
  | [], _ => true
  | _ :: _, [] => false
  | a :: as, b :: bs => a == b && listPrefix as bs

/-- Boolean infix test on character lists (helper for `jsIncludes`). -/
def listInfix (pat : List Char) : List Char → Bool
  | [] => pat.isEmpty
  | c :: rest => listPrefix pat (c :: rest) || listInfix pat rest

/-- JS `s.includes(pat)`: substring containment. -/
def jsIncludes (s pat : String) : Bool := listInfix pat.toList s.toList

/-- JS `s.toLowerCase()` on the ASCII strings handled by the script
(structural recursion over the character list, so that concrete runs reduce
in the kernel). -/
def jsToLower (s : String) : String := ⟨s.data.map Char.toLower⟩

/-- JS `s.trim()` on the ASCII strings handled by the script (structural
recursion over the character list). -/
def jsTrim (s : String) : String :=
  ⟨((s.data.dropWhile Char.isWhitespace).reverse.dropWhile Char.isWhitespace).reverse⟩

/-- GitHub repository object, with the fields fetch-modules.js reads (plus
`created_at`, which the GitHub API provides but the script never reads). -/
structure Repo where
  full_name : String
  description : Option String
  html_url : String
  pushed_at : Option String
  updated_at : Option String
  created_at : Option String
deriving DecidableEq

/-- Parsed composer.json fields read by the script. -/
structure Composer where
  type : Option String
  keywords : Option (List String)
  name : Option String
  description : Option String
deriving DecidableEq

/-- GitHub release object fields read by the script. -/
structure Release where
  published_at : Option String
  tag_name : Option String
  name : Option String
deriving DecidableEq

/-- GitHub tag object field read by the script. -/
structure Tag where
  name : String
deriving DecidableEq

/-- Packagist per-version metadata read by the script. -/
structure PackagistVersion where
  time : String
  homepage : Option String
deriving DecidableEq

/-- Packagist package detail (`detail.package`): the latest version key and
the versions map, modelled as an association list. -/
structure PackagistDetail where
  version : String
  versions : List (String × PackagistVersion)
deriving DecidableEq

/-- Packagist search result entry read by the script. -/
structure PackagistPkg where
  name : String
  description : Option String
  url : Option String
deriving DecidableEq

/-- An HTTP response: a status plus the parsed JSON payload relevant to the
endpoint (a field is `none` when the body is absent or fails to decode or
parse, which in the JS surfaces as a thrown error or an undefined field). -/
structure HttpResp where
  status : Nat
  items : Option (List Repo)
  composerBody : Option Composer
  releaseBody : Option Release
  tagsBody : Option (List Tag)
  packagistSearchBody : Option (List PackagistPkg)
  packagistBody : Option PackagistDetail
deriving DecidableEq

/-- Response with the given status and no payload. -/
def mkResp (status : Nat) : HttpResp := ⟨status, none, none, none, none, none, none⟩

/-- Run-scoped mutable state of the ModuleFetcher: the 404 cache, the ordered
log of network requests issued, and the backoff sleeps performed (ms). -/
structure FetchState where
  notFoundCache : List String
  requestLog : List String
  sleeps : List Nat
deriving DecidableEq

/-- A thrown JS error, identified by the HTTP status in its message and
whether it is the cached-404 error from `rateLimitedFetch`. -/
structure JsErr where
  status : Nat
  cached : Bool
deriving DecidableEq

/-- Outcome of a fetch helper: a normal return (possibly `undefined`, when
the retry loop falls through) or a thrown error. -/
inductive FetchResult where
  | ok (r : Option HttpResp)
  | thrown (e : JsErr)
deriving DecidableEq

/-- The network environment: the response the k-th request for a URL gets. -/
abbrev FetchEnv := String → Nat → HttpResp

/-- Model of `Date.parse`: `none` is an invalid date (NaN). -/
abbrev DateParse := String → Option Int

/-- The `response.ok` flag: status in the range 200..299. -/
def respOk (r : HttpResp) : Bool := decide (200 ≤ r.status ∧ r.status < 300)

/-- Body of the `for (let i = 0; i < maxRetries; i++)` loop of
`fetchWithRetry`.  `fuel` is the number of loop iterations left
(`maxRetries - i`), so `fuel = 0` is the loop exit, where the JS function
falls through and returns `undefined`.  Each iteration fetches the URL; an ok
response returns; a 404 is cached in `notFoundCache` and thrown without
retrying (it is rethrown by the catch clause because its message contains
`HTTP 404`); any other non-success status is thrown, and the catch clause
rethrows it on the last iteration and otherwise sleeps `1000 * (i + 1)` ms
and continues. -/
def fetchRetryGo (env : FetchEnv) (url : String) (maxRetries : Nat) :
    Nat → Nat → FetchState → FetchResult × FetchState
  | 0, _, st => (.ok none, st)
  | fuel + 1, i, st =>
    let r := env url (st.requestLog.count url)
    let st1 : FetchState := { st with requestLog := st.requestLog ++ [url] }
    if respOk r then (.ok (some r), st1)
    else if r.status = 404 then
      (.thrown ⟨404, false⟩, { st1 with notFoundCache := st1.notFoundCache ++ [url] })
    else if i = maxRetries - 1 then
      (.thrown ⟨r.status, false⟩, st1)
    else
      fetchRetryGo env url maxRetries fuel (i + 1) { st1 with sleeps := st1.sleeps ++ [1000 * (i + 1)] }

/-- Model of `fetchWithRetry(url, options, maxRetries)`. -/
def fetchWithRetry (env : FetchEnv) (url : String) (maxRetries : Nat) (st : FetchState) :
    FetchResult × FetchState :=
  fetchRetryGo env url maxRetries maxRetries 0 st

/-- Model of `rateLimitedFetch(url, options)`: a URL in the 404 cache throws
`HTTP 404: Not Found (cached)` without any network request; otherwise it
delegates to `fetchWithRetry` with the default `maxRetries = 3`. -/
def rateLimitedFetch (env : FetchEnv) (url : String) (st : FetchState) :
    FetchResult × FetchState :=
  if url ∈ st.notFoundCache then (.thrown ⟨404, true⟩, st)
  else fetchWithRetry env url 3 st

/-- URL of a repository composer.json contents endpoint. -/
def composerUrl (repo : Repo) : String :=
  GITHUB_API_BASE ++ "/repos/" ++ repo.full_name ++ "/contents/composer.json"

/-- URL of a repository latest-release endpoint. -/
def releasesLatestUrl (repo : Repo) : String :=
  GITHUB_API_BASE ++ "/repos/" ++ repo.full_name ++ "/releases/latest"

/-- URL of a repository tags endpoint (first tag only). -/
def tagsUrl (repo : Repo) : String :=
  GITHUB_API_BASE ++ "/repos/" ++ repo.full_name ++ "/tags?per_page=1"

/-- URL of the GitHub repository search endpoint for a query (the
percent-encoding applied by encodeURIComponent is elided: it is injective and
none of the claims depends on the concrete URL text). -/
def searchUrl (q : String) : String :=
  GITHUB_API_BASE ++ "/search/repositories?q=" ++ q ++ "&sort=updated&order=desc&per_page=50"

/-- URL of the Packagist search endpoint used by the fallback. -/
def packagistSearchUrl : String :=
  PACKAGIST_API_BASE ++ "/search.json?q=silverstripe&type=silverstripe-module&per_page=100"

/-- URL of a Packagist package detail endpoint. -/
def packagistPackageUrl (name : String) : String :=
  PACKAGIST_API_BASE ++ "/packages/" ++ name ++ ".json"

/-- The fallback check in the catch clause of `validateSilverstripeModule`:
the repo full name, or a truthy description, contains "silverstripe". -/
def fallbackRepoCheck (repo : Repo) : Bool :=
  jsIncludes (jsToLower repo.full_name) "silverstripe" ||
    (match repo.description with
     | some d => d != "" && jsIncludes (jsToLower d) "silverstripe"
     | none => false)

/-- Model of `validateSilverstripeModule(repo)`: fetches the composer.json of
the repo via `rateLimitedFetch`; on success checks the composer type,
keywords and name for Silverstripe markers; any thrown error (including a
base64/JSON parse failure, modelled by `composerBody = none`) falls back to
`fallbackRepoCheck`.  The method itself never throws. -/
def validateSilverstripeModule (env : FetchEnv) (repo : Repo) (st : FetchState) :
    Bool × FetchState :=
  match rateLimitedFetch env (composerUrl repo) st with
  | (.ok (some r), st1) =>
    if respOk r then
      match r.composerBody with
      | some c =>
        let ty := jsOrStr c.type ""
        let kws := c.keywords.getD []
        let nm := jsOrStr c.name ""
        (jsIncludes ty "silverstripe-" ||
           kws.any (fun k => jsIncludes (jsToLower k) "silverstripe") ||
           jsIncludes (jsToLower nm) "silverstripe", st1)
      | none => (fallbackRepoCheck repo, st1)
    else (false, st1)
  | (.ok none, st1) => (fallbackRepoCheck repo, st1)
  | (.thrown _, st1) => (fallbackRepoCheck repo, st1)

/-- A JS value as it may appear in the `published` field of a record: a
string, a Date object (with its timestamp, `none` for an Invalid Date), or
`undefined`. -/
inductive JsVal where
  | undefined
  | str (s : String)
  | date (t : Option Int)
deriving DecidableEq

/-- Timestamp of a `published` value under `new Date(x)`:
`new Date(undefined)` is an Invalid Date (NaN). -/
def jsDateOf (dp : DateParse) : JsVal → Option Int
  | .undefined => none
  | .str s => dp s
  | .date t => t

/-- JS `>` on two possibly-NaN timestamps: any comparison with NaN is false. -/
def jsGT (a b : Option Int) : Bool :=
  match a, b with
  | some x, some y => decide (y < x)
  | _, _ => false

/-- Wraps the final `publishedDate` (a string or `undefined`) as a JS value. -/
def jsValOfOpt : Option String → JsVal
  | some s => .str s
  | none => .undefined

/-- A module record as built by the pipeline (the spec calls it
ModuleRecord).  `published` is whatever JS value the code stored there. -/
structure ModuleRecord where
  name : String
  description : String
  url : String
  published : JsVal
  version : Option String
deriving DecidableEq

/-- First inner try block of `extractModuleData`: refine the package name
and description from composer.json, keeping the repo-derived fallbacks on
any error or falsy field. -/
def composerRefine (env : FetchEnv) (repo : Repo) (nameDesc : String × String)
    (st : FetchState) : (String × String) × FetchState :=
  match rateLimitedFetch env (composerUrl repo) st with
  | (.ok (some r), st1) =>
    if respOk r then
      match r.composerBody with
      | some c =>
        (((jsTruthyStr c.name).getD nameDesc.1,
          (jsTruthyStr c.description).getD nameDesc.2), st1)
      | none => (nameDesc, st1)
    else (nameDesc, st1)
  | (.ok none, st1) => (nameDesc, st1)
  | (.thrown _, st1) => (nameDesc, st1)

/-- Second inner try block of `extractModuleData`: fetch the latest release
and replace `publishedDate` by `release.published_at` when the release date
is strictly more recent (`releaseDate > pushDate`; comparisons against an
invalid or undefined date are false).  Any error keeps the push/update
date. -/
def refinePublishedFromRelease (env : FetchEnv) (dp : DateParse) (repo : Repo)
    (publishedDate : Option String) (st : FetchState) : Option String × FetchState :=
  match rateLimitedFetch env (releasesLatestUrl repo) st with
  | (.ok (some r), st1) =>
    if respOk r then
      match r.releaseBody with
      | some rel =>
        match jsTruthyStr rel.published_at with
        | some pa =>
          if jsGT (dp pa) (publishedDate.bind dp) then (some pa, st1)
          else (publishedDate, st1)
        | none => (publishedDate, st1)
      | none => (publishedDate, st1)
    else (publishedDate, st1)
  | (.ok none, st1) => (publishedDate, st1)
  | (.thrown _, st1) => (publishedDate, st1)

/-- Model of `getLatestVersion(repo)`: latest release tag name or name, else
the most recent tag, else null; every thrown error yields null. -/
def getLatestVersion (env : FetchEnv) (repo : Repo) (st : FetchState) :
    Option String × FetchState :=
  match rateLimitedFetch env (releasesLatestUrl repo) st with
  | (.ok (some r), st1) =>
    if respOk r then
      match r.releaseBody with
      | some rel => (jsTruthyStr rel.tag_name <|> jsTruthyStr rel.name, st1)
      | none => (none, st1)
    else
      match rateLimitedFetch env (tagsUrl repo) st1 with
      | (.ok (some tr), st2) =>
        if respOk tr then
          match tr.tagsBody with
          | some (t :: _) => (some t.name, st2)
          | some [] => (none, st2)
          | none => (none, st2)
        else (none, st2)
      | (.ok none, st2) => (none, st2)
      | (.thrown _, st2) => (none, st2)
  | (.ok none, st1) => (none, st1)
  | (.thrown _, st1) => (none, st1)

/-- Model of `extractModuleData(repo)`.  The base `publishedDate` is
`repo.pushed_at || repo.updated_at` (the script never reads
`repo.created_at`); the release date may replace it; name and description
are refined from composer.json.  The outer catch clause of the source is
unreachable here because no step of the body throws, so the result is always
`some` record. -/
def extractModuleData (env : FetchEnv) (dp : DateParse) (repo : Repo) (st : FetchState) :
    Option ModuleRecord × FetchState :=
  let nd0 := (repo.full_name, jsOrStr repo.description "No description available")
  let (nd, st1) := composerRefine env repo nd0 st
  let base := jsOrO repo.pushed_at repo.updated_at
  let (publishedDate, st2) := refinePublishedFromRelease env dp repo base st1
  let (version, st3) := getLatestVersion env repo st2
  (some { name := nd.1, description := jsTrim nd.2, url := repo.html_url,
          published := jsValOfOpt publishedDate, version := version }, st3)

/-- The ordered search query list of `searchGitHubRepositories`. -/
def searchQueries : List String :=
  ["silverstripe language:PHP pushed:>2024-01-01",
   "silverstripe language:PHP updated:>2024-06-01",
   "user:silverstripe language:PHP pushed:>2023-01-01",
   "topic:silverstripe-vendormodule language:PHP",
   "topic:silverstripe-module language:PHP",
   "topic:silverstripe-theme language:PHP",
   "user:jonom language:PHP",
   "user:lozcalver language:PHP",
   "user:nswdpc language:PHP",
   "user:silverstripe-terraformers language:PHP",
   "user:wilr language:PHP",
   "user:sunnysideup language:PHP",
   "user:dnadesign language:PHP",
   "user:tractorcow language:PHP",
   "user:firesphere language:PHP",
   "user:bigfork language:PHP",
   "user:lekoala language:PHP",
   "user:axllent language:PHP",
   "silverstripe in:name language:PHP",
   "\"silverstripe/framework\" in:file filename:composer.json"]

/-- Inner per-page loop of `searchGitHubRepositories` over `data.items`:
stops as soon as `MAX_MODULES` modules are accumulated, skips repos already
in `foundRepos`, and otherwise validates and extracts; the per-repo catch
clause is unreachable because validation and extraction never throw. -/
def processSearchItems (env : FetchEnv) (dp : DateParse) :
    List Repo → List String → List ModuleRecord → FetchState →
      List String × List ModuleRecord × FetchState
  | [], foundRepos, modules, st => (foundRepos, modules, st)
  | repo :: rest, foundRepos, modules, st =>
    if MAX_MODULES ≤ modules.length then (foundRepos, modules, st)
    else if foundRepos.contains repo.full_name then
      processSearchItems env dp rest foundRepos modules st
    else
      let foundRepos1 := foundRepos ++ [repo.full_name]
      match validateSilverstripeModule env repo st with
      | (isValid, st1) =>
        if isValid then
          match extractModuleData env dp repo st1 with
          | (some m, st2) => processSearchItems env dp rest foundRepos1 (modules ++ [m]) st2
          | (none, st2) => processSearchItems env dp rest foundRepos1 modules st2
        else processSearchItems env dp rest foundRepos1 modules st1

/-- Outer query loop of `searchGitHubRepositories`: breaks once
`MAX_MODULES * 3` modules are accumulated; a failed query (a thrown fetch
error, or an undefined response whose `.json()` access throws) is caught and
the loop continues with the next query. -/
def searchGo (env : FetchEnv) (dp : DateParse) :
    List String → List String → List ModuleRecord → FetchState →
      List ModuleRecord × FetchState
  | [], _, modules, st => (modules, st)
  | q :: qs, foundRepos, modules, st =>
    if MAX_MODULES * 3 ≤ modules.length then (modules, st)
    else
      match rateLimitedFetch env (searchUrl q) st with
      | (.ok (some r), st1) =>
        match processSearchItems env dp (r.items.getD []) foundRepos modules st1 with
        | (foundRepos1, modules1, st2) => searchGo env dp qs foundRepos1 modules1 st2
      | (.ok none, st1) => searchGo env dp qs foundRepos modules st1
      | (.thrown _, st1) => searchGo env dp qs foundRepos modules st1

/-- Model of `searchGitHubRepositories()`. -/
def searchGitHubRepositories (env : FetchEnv) (dp : DateParse) (st : FetchState) :
    List ModuleRecord × FetchState :=
  searchGo env dp searchQueries [] [] st

/-- Model of `extractPackagistModuleData(module)`: fetches the package
detail with `fetchWithRetry`, reads the latest version from the versions
map, and builds the record.  Note that `published` is stored as a Date
object (`new Date(latestVersion.time)`), not a string.  A missing version
entry makes the JS throw on `latestVersion.time` and the catch clause
returns null. -/
def extractPackagistModuleData (env : FetchEnv) (dp : DateParse) (pkg : PackagistPkg)
    (st : FetchState) : Option ModuleRecord × FetchState :=
  match fetchWithRetry env (packagistPackageUrl pkg.name) 3 st with
  | (.ok (some r), st1) =>
    match r.packagistBody with
    | some detail =>
      match detail.versions.lookup detail.version with
      | some v =>
        (some { name := pkg.name,
                description := jsOrStr pkg.description "No description available",
                url := (jsTruthyStr pkg.url).getD
                  ((jsTruthyStr v.homepage).getD
                    ("https://packagist.org/packages/" ++ pkg.name)),
                published := .date (dp v.time),
                version := some detail.version }, st1)
      | none => (none, st1)
    | none => (none, st1)
  | (.ok none, st1) => (none, st1)
  | (.thrown _, st1) => (none, st1)

/-- Sequential model of the `Promise.all(data.results.map(...))` step of
`fallbackToPackagist`, with the null results filtered out.  The request
interleaving of the concurrent JS version does not affect any modelled
observable because each package hits its own URL. -/
def extractPackagistList (env : FetchEnv) (dp : DateParse) :
    List PackagistPkg → FetchState → List ModuleRecord × FetchState
  | [], st => ([], st)
  | p :: ps, st =>
    match extractPackagistModuleData env dp p st with
    | (m, st1) =>
      match extractPackagistList env dp ps st1 with
      | (rest, st2) =>
        (match m with
         | some mod => mod :: rest
         | none => rest, st2)

/-- Model of `fallbackToPackagist()`: searches Packagist and extracts each
result; any error yields the empty list. -/
def fallbackToPackagist (env : FetchEnv) (dp : DateParse) (st : FetchState) :
    List ModuleRecord × FetchState :=
  match fetchWithRetry env packagistSearchUrl 3 st with
  | (.ok (some r), st1) =>
    match r.packagistSearchBody with
    | some results => extractPackagistList env dp results st1
    | none => ([], st1)
  | (.ok none, st1) => ([], st1)
  | (.thrown _, st1) => ([], st1)

/-- Sort key of the comparator `new Date(b.published) - new Date(a.published)`
of `sortModulesByDate`; an unparseable date is NaN in JS, for which the
comparator result is unspecified, arbitrarily modelled as timestamp 0 here. -/
def sortKey (dp : DateParse) (m : ModuleRecord) : Int :=
  (jsDateOf dp m.published).getD 0

/-- Model of `sortModulesByDate(modules)`: newest first.
`Array.prototype.sort` is required to be stable (ECMA-262, ES2019 on), and a
stable sort by a total preorder is extensionally unique, so insertion sort
with the same comparator is an exact model. -/
def sortModulesByDate (dp : DateParse) (modules : List ModuleRecord) : List ModuleRecord :=
  List.insertionSort (fun a b => sortKey dp b ≤ sortKey dp a) modules

/-- The merge-and-dedupe step of `fetchModules`: secondary (Packagist)
entries whose name already occurs among the primary results are dropped. -/
def mergeModules (modules packagistModules : List ModuleRecord) : List ModuleRecord :=
  let existingNames := modules.map (fun m => m.name)
  modules ++ packagistModules.filter (fun m => !(existingNames.contains m.name))

/-- The candidate set of `fetchModules()` before sorting and truncation: the
GitHub results, merged with the deduplicated Packagist fallback when GitHub
produced fewer than MAX_MODULES.  The catch clause of the source (Packagist
only) is unreachable because `searchGitHubRepositories` never throws. -/
def fetchModulesMerged (env : FetchEnv) (dp : DateParse) (st : FetchState) :
    List ModuleRecord × FetchState :=
  match searchGitHubRepositories env dp st with
  | (modules, st1) =>
    if modules.length < MAX_MODULES then
      match fallbackToPackagist env dp st1 with
      | (packagistModules, st2) => (mergeModules modules packagistModules, st2)
    else (modules, st1)

/-- Model of `fetchModules()`: sort the merged candidates by published date
and truncate to the first MAX_MODULES. -/
def fetchModules (env : FetchEnv) (dp : DateParse) (st : FetchState) :
    List ModuleRecord × FetchState :=
  match fetchModulesMerged env dp st with
  | (modules, st1) => ((sortModulesByDate dp modules).take MAX_MODULES, st1)

/-! Generic facts about stable insertion by a key, used for the
`sortModulesByDate` claims. -/

theorem orderedInsert_filter_key {α : Type} (k : α → Int) (p : α → Bool) (a : α)
    (hp : ∀ x, p x = true → p a = true → k x = k a) :
    ∀ l : List α,
      (List.orderedInsert (fun x y => k y ≤ k x) a l).filter p =
        if p a then a :: l.filter p else l.filter p := by
  intro l
  induction l with
  | nil =>
    by_cases hpa : p a = true <;> simp [List.orderedInsert, hpa]
  | cons b bs ih =>
    rw [List.orderedInsert]
    by_cases hab : k b ≤ k a
    · rw [if_pos hab]
      by_cases hpa : p a = true
      · simp [List.filter_cons, hpa]
      · simp [List.filter_cons, hpa]
    · rw [if_neg hab]
      by_cases hpb : p b = true
      · by_cases hpa : p a = true
        · exact absurd (le_of_eq (hp b hpb hpa)) hab
        · simp [List.filter_cons, hpb, hpa, ih]
      · simp [List.filter_cons, hpb, ih]

theorem insertionSort_filter_key {α : Type} (k : α → Int) (p : α → Bool)
    (hp : ∀ x y, p x = true → p y = true → k x = k y) :
    ∀ l : List α, (List.insertionSort (fun x y => k y ≤ k x) l).filter p = l.filter p := by
  intro l
  induction l with
  | nil => rfl
  | cons a l ih =>
    rw [List.insertionSort, orderedInsert_filter_key k p a (fun x hx ha => hp x a hx ha)]
    by_cases hpa : p a = true
    · simp [List.filter_cons, hpa, ih]
    · simp [List.filter_cons, hpa, ih]

/-- Sorting keeps the list a permutation of the input. -/
theorem sortModulesByDate_perm (dp : DateParse) (l : List ModuleRecord) :
    List.Perm (sortModulesByDate dp l) l :=
  List.perm_insertionSort _ l

/-- C2: the sequence produced by `sortModulesByDate` (the final ordering of
`fetchModules()`) is sorted non-increasing by the `published` field parsed as
a timestamp, and records with equal parsed `published` timestamps retain
their relative input order (stability, stated as: the run of records whose
`published` parses to any fixed value `t` is exactly the corresponding
sublist of the input, in input order). -/
theorem sortModulesByDate_sorted_stable (dp : DateParse) (l : List ModuleRecord) :
    (sortModulesByDate dp l).Pairwise (fun a b => sortKey dp b ≤ sortKey dp a) ∧
      ∀ t : Option Int,
        (sortModulesByDate dp l).filter (fun m => jsDateOf dp m.published == t) =
          l.filter (fun m => jsDateOf dp m.published == t) := by
  constructor
  · haveI : IsTotal ModuleRecord (fun a b => sortKey dp b ≤ sortKey dp a) :=
      ⟨fun a b => le_total _ _⟩
    haveI : IsTrans ModuleRecord (fun a b => sortKey dp b ≤ sortKey dp a) :=
      ⟨fun a b c h1 h2 => le_trans h2 h1⟩
    exact List.sorted_insertionSort _ l
  · intro t
    refine insertionSort_filter_key (sortKey dp) (fun m => jsDateOf dp m.published == t)
      (fun x y hx hy => ?_) l
    have hx' := eq_of_beq hx
    have hy' := eq_of_beq hy
    simp [sortKey, hx', hy']

/-- C1: the sequence returned by `fetchModules()` always has at most
MAX_MODULES = 20 records, and whenever at least 20 distinct candidates were
discovered across the primary search and the secondary fallback (the merged
deduplicated candidate list has length at least 20), it has exactly 20. -/
theorem fetchModules_size (env : FetchEnv) (dp : DateParse) (st : FetchState) :
    (fetchModules env dp st).1.length ≤ MAX_MODULES ∧
      (MAX_MODULES ≤ (fetchModulesMerged env dp st).1.length →
        (fetchModules env dp st).1.length = MAX_MODULES) := by
  rcases hm : fetchModulesMerged env dp st with ⟨ms, st1⟩
  have hlen : (sortModulesByDate dp ms).length = ms.length :=
    (sortModulesByDate_perm dp ms).length_eq
  constructor
  · simp [fetchModules, hm, List.length_take]
  · intro h
    simp only [hm] at h
    simp [fetchModules, hm, List.length_take, hlen]
    omega

/-- C3: with internally distinct names on each side, the merge step drops
exactly the secondary entries whose name already occurs in the primary set,
and the resulting output (after sorting and truncation, as in
`fetchModules()`) never contains two records with the same name. -/
theorem mergeModules_nodup_names (dp : DateParse) (p s : List ModuleRecord)
    (hp : (p.map (fun m => m.name)).Nodup) (hs : (s.map (fun m => m.name)).Nodup) :
    (∀ m ∈ mergeModules p s, m ∈ p ∨ (m ∈ s ∧ m.name ∉ p.map (fun m => m.name))) ∧
      ((((sortModulesByDate dp (mergeModules p s)).take MAX_MODULES).map
        (fun m => m.name)).Nodup) := by
  have hmergemap : (mergeModules p s).map (fun m => m.name) =
      p.map (fun m => m.name) ++
        (s.filter (fun m => !((p.map (fun m => m.name)).contains m.name))).map
          (fun m => m.name) := by
    simp [mergeModules]
  have hfilter_sub :
      List.Sublist (s.filter (fun m => !((p.map (fun m => m.name)).contains m.name))) s :=
    List.filter_sublist s
  have hmerge_nodup : ((mergeModules p s).map (fun m => m.name)).Nodup := by
    rw [hmergemap]
    refine List.Nodup.append hp ((hfilter_sub.map _).nodup hs) ?_
    intro x hxp hxf
    simp only [List.mem_map] at hxf
    obtain ⟨m, hmf, rfl⟩ := hxf
    have := List.of_mem_filter hmf
    simp only [Bool.not_eq_true', List.contains, List.elem_eq_mem,
      decide_eq_false_iff_not] at this
    exact this hxp
  constructor
  · intro m hm
    simp only [mergeModules, List.mem_append, List.mem_filter] at hm
    rcases hm with hm | ⟨hms, hname⟩
    · exact Or.inl hm
    · refine Or.inr ⟨hms, ?_⟩
      simpa [List.contains, List.elem_eq_mem] using hname
  · have hperm := (sortModulesByDate_perm dp (mergeModules p s)).map (fun m => m.name)
    have hsorted_nodup := (hperm.nodup_iff).2 hmerge_nodup
    exact hsorted_nodup.sublist ((List.take_sublist _ _).map _)

/-! Facts about the retry loop of `fetchWithRetry`. -/

/-- Every iteration of the retry loop on a URL whose response is a
non-success, non-404 status: the loop makes one attempt per remaining
iteration, sleeps `1000 * attempt` ms after each failed attempt except the
last, and throws the error of the last attempt. -/
theorem fetchRetryGo_all_fail (env : FetchEnv) (url : String) (maxRetries : Nat)
    (hfail : ∀ k, respOk (env url k) = false ∧ (env url k).status ≠ 404) :
    ∀ fuel, 0 < fuel → ∀ i st, i + fuel = maxRetries →
      fetchRetryGo env url maxRetries fuel i st =
        (.thrown ⟨(env url (st.requestLog.count url + (fuel - 1))).status, false⟩,
         { st with requestLog := st.requestLog ++ List.replicate fuel url,
                   sleeps := st.sleeps ++
                     (List.range (fuel - 1)).map (fun a => 1000 * (i + 1 + a)) }) := by
  intro fuel
  induction fuel with
  | zero => intro h; exact absurd h (by omega)
  | succ f ih =>
    intro _ i st hsum
    rw [fetchRetryGo]
    rcases hfail (st.requestLog.count url) with ⟨h1, h2⟩
    simp only [h1, Bool.false_eq_true, if_false, h2, ite_false]
    rcases f with _ | f'
    · have hi : i = maxRetries - 1 := by omega
      simp [hi, List.replicate]
    · have hi : ¬(i = maxRetries - 1) := by omega
      rw [if_neg hi]
      rw [ih (by omega) (i + 1) _ (by omega)]
      simp only [Nat.add_sub_cancel]
      have hcount : ((st.requestLog ++ [url]).count url) = st.requestLog.count url + 1 := by
        simp [List.count_append]
      rw [hcount]
      have hidx : st.requestLog.count url + 1 + f' = st.requestLog.count url + (f' + 1) := by
        omega
      rw [hidx]
      have hlog : st.requestLog ++ [url] ++ List.replicate (f' + 1) url =
          st.requestLog ++ List.replicate (f' + 2) url := by
        rw [List.append_assoc, List.singleton_append, ← List.replicate_succ]
      rw [hlog]
      have hsleeps : st.sleeps ++ [1000 * (i + 1)] ++
            (List.range f').map (fun a => 1000 * (i + 1 + 1 + a)) =
          st.sleeps ++ (List.range (f' + 1)).map (fun a => 1000 * (i + 1 + a)) := by
        rw [List.append_assoc, List.singleton_append, List.range_succ_eq_map, List.map_cons,
          List.map_map]
        have h2 : List.map ((fun a => 1000 * (i + 1 + a)) ∘ Nat.succ) (List.range f') =
            List.map (fun a => 1000 * (i + 1 + 1 + a)) (List.range f') :=
          List.map_congr_left (fun a _ => by simp only [Function.comp_apply]; omega)
        rw [h2]
      rw [hsleeps]

/-- C4: on a URL whose every attempt yields a non-success, non-404 status,
`fetchWithRetry` makes exactly `maxRetries` attempts (so it retries at most
`maxRetries` times), sleeps `1000 * attempt` ms between consecutive attempts
(linear backoff: 1000, 2000, ...), and finally propagates the error of the
last attempt to the caller. -/
theorem fetchWithRetry_exhausts_and_propagates (env : FetchEnv) (url : String)
    (st : FetchState) (maxRetries : Nat) (hpos : 0 < maxRetries)
    (hfail : ∀ k, respOk (env url k) = false ∧ (env url k).status ≠ 404) :
    fetchWithRetry env url maxRetries st =
      (.thrown ⟨(env url (st.requestLog.count url + (maxRetries - 1))).status, false⟩,
       { st with requestLog := st.requestLog ++ List.replicate maxRetries url,
                 sleeps := st.sleeps ++
                   (List.range (maxRetries - 1)).map (fun a => 1000 * (a + 1)) }) := by
  rw [fetchWithRetry, fetchRetryGo_all_fail env url maxRetries hfail maxRetries hpos 0 st (by omega)]
  have : ((List.range (maxRetries - 1)).map (fun a => 1000 * (0 + 1 + a))) =
      ((List.range (maxRetries - 1)).map (fun a => 1000 * (a + 1))) := by
    refine List.map_congr_left (fun a _ => ?_)
    omega
  rw [this]

/-- Environment answering every request with a bare 500. -/
def env500 : FetchEnv := fun _ _ => mkResp 500

/-- Environment answering every request with a bare 404. -/
def env404c : FetchEnv := fun _ _ => mkResp 404

/-- Date parser that treats every string as unparseable (any fixed parser
works for the witnesses). -/
def dpNone : DateParse := fun _ => none

/-- The empty run-start state (fresh ModuleFetcher). -/
def st0 : FetchState := ⟨[], [], []⟩

/-- Witness for `fetchWithRetry_exhausts_and_propagates`: three failing
attempts on a 500 URL, sleeps of 1000 and 2000 ms, final error 500. -/
theorem fetchWithRetry_exhausts_witness :
    fetchWithRetry env500 "u" 3 ⟨[], [], []⟩ =
      (.thrown ⟨500, false⟩, ⟨[], ["u", "u", "u"], [1000, 2000]⟩) := by
  have h := fetchWithRetry_exhausts_and_propagates env500 "u" ⟨[], [], []⟩ 3 (by decide)
    (fun k => ⟨rfl, by simp [env500, mkResp]⟩)
  simpa using h

/-- C5: a 404 response makes `fetchWithRetry` throw at once — a single
attempt, no sleep, no further retry — and adds the URL to the 404 cache;
and any later `rateLimitedFetch` of a URL present in the 404 cache throws
the cached error with no network request (the state, including the request
log, is unchanged). -/
theorem fetchWithRetry_404_terminal (env : FetchEnv) (url : String)
    (st : FetchState) (maxRetries : Nat) (hpos : 0 < maxRetries)
    (h404 : (env url (st.requestLog.count url)).status = 404) :
    fetchWithRetry env url maxRetries st =
      (.thrown ⟨404, false⟩,
       { st with requestLog := st.requestLog ++ [url],
                 notFoundCache := st.notFoundCache ++ [url] }) ∧
      ∀ st' : FetchState, url ∈ st'.notFoundCache →
        rateLimitedFetch env url st' = (.thrown ⟨404, true⟩, st') := by
  constructor
  · rcases maxRetries with _ | m
    · exact absurd hpos (by omega)
    · rw [fetchWithRetry, fetchRetryGo]
      have hok : respOk (env url (st.requestLog.count url)) = false := by
        simp [respOk, h404]
      simp only [hok, Bool.false_eq_true, if_false, h404, ite_true, if_true]
  · intro st' hmem
    rw [rateLimitedFetch, if_pos hmem]

/-- Witness for `fetchWithRetry_404_terminal`: a 404 URL is fetched once,
cached, and a subsequent `rateLimitedFetch` of it returns the cached error
without touching the request log. -/
theorem fetchWithRetry_404_terminal_witness :
    fetchWithRetry env404c "u" 3 ⟨[], [], []⟩ =
        (.thrown ⟨404, false⟩, ⟨["u"], ["u"], []⟩) ∧
      rateLimitedFetch env404c "u" ⟨["u"], ["u"], []⟩ =
        (.thrown ⟨404, true⟩, ⟨["u"], ["u"], []⟩) := by
  have h := fetchWithRetry_404_terminal env404c "u" ⟨[], [], []⟩ 3 (by decide) (by decide)
  exact ⟨by simpa using h.1, h.2 ⟨["u"], ["u"], []⟩ (by simp)⟩

/-! Facts about the search loops. -/

/-- The inner per-page loop never grows the module list beyond MAX_MODULES. -/
theorem processSearchItems_length_le (env : FetchEnv) (dp : DateParse) :
    ∀ (items : List Repo) (foundRepos : List String) (modules : List ModuleRecord)
      (st : FetchState), modules.length ≤ MAX_MODULES →
      (processSearchItems env dp items foundRepos modules st).2.1.length ≤ MAX_MODULES := by
  intro items
  induction items with
  | nil => intro foundRepos modules st h; simpa [processSearchItems] using h
  | cons repo rest ih =>
    intro foundRepos modules st h
    rw [processSearchItems]
    by_cases hfull : MAX_MODULES ≤ modules.length
    · simpa [hfull] using h
    · rw [if_neg hfull]
      by_cases hseen : repo.full_name ∈ foundRepos
      · rw [if_pos (by simpa [List.contains, List.elem_eq_mem] using hseen)]
        exact ih foundRepos modules st h
      · rw [if_neg (by simpa [List.contains, List.elem_eq_mem] using hseen)]
        rcases hval : validateSilverstripeModule env repo st with ⟨isValid, st1⟩
        rcases isValid with _ | _
        · simpa [hval] using ih (foundRepos ++ [repo.full_name]) modules st1 h
        · rcases hext : extractModuleData env dp repo st1 with ⟨m, st2⟩
          rcases m with _ | m
          · simpa [hval, hext] using ih (foundRepos ++ [repo.full_name]) modules st2 h
          · have hlen : (modules ++ [m]).length ≤ MAX_MODULES := by
              simp only [List.length_append, List.length_cons, List.length_nil]
              omega
            simpa [hval, hext] using
              ih (foundRepos ++ [repo.full_name]) (modules ++ [m]) st2 hlen

/-- The outer query loop never grows the module list beyond MAX_MODULES. -/
theorem searchGo_length_le (env : FetchEnv) (dp : DateParse) :
    ∀ (qs : List String) (foundRepos : List String) (modules : List ModuleRecord)
      (st : FetchState), modules.length ≤ MAX_MODULES →
      (searchGo env dp qs foundRepos modules st).1.length ≤ MAX_MODULES := by
  intro qs
  induction qs with
  | nil => intro foundRepos modules st h; simpa [searchGo] using h
  | cons q rest ih =>
    intro foundRepos modules st h
    rw [searchGo]
    by_cases hfull : MAX_MODULES * 3 ≤ modules.length
    · simpa [hfull] using h
    · rw [if_neg hfull]
      rcases hf : rateLimitedFetch env (searchUrl q) st with ⟨res, st1⟩
      rcases res with r | e
      · rcases r with _ | r
        · simpa [hf] using ih foundRepos modules st1 h
        · rcases hp : processSearchItems env dp (r.items.getD []) foundRepos modules st1 with
            ⟨foundRepos1, modules1, st2⟩
          have h1 := processSearchItems_length_le env dp (r.items.getD []) foundRepos modules st1 h
          rw [hp] at h1
          simpa [hf, hp] using ih foundRepos1 modules1 st2 h1
      · simpa [hf] using ih foundRepos modules st1 h

/-- C10: the list returned by `searchGitHubRepositories()` never holds more
than MAX_MODULES = 20 records, whatever the provider responses: the inner
loop stops adding candidates as soon as the count reaches MAX_MODULES,
regardless of the outer MAX_MODULES * 3 ceiling. -/
theorem searchGitHubRepositories_length_le (env : FetchEnv) (dp : DateParse)
    (st : FetchState) :
    (searchGitHubRepositories env dp st).1.length ≤ MAX_MODULES :=
  searchGo_length_le env dp searchQueries [] [] st (by simp)

/-- C7: the outer loop of `searchGitHubRepositories()` issues no further
query once the accumulated module count has reached MAX_MODULES * 3 = 60
(it returns at once, leaving the state — hence the request log — untouched);
and a failed query (one whose fetch throws) never aborts the search: the
loop continues with the remaining queries from the post-failure state. -/
theorem searchGo_ceiling_and_failure_isolation :
    (∀ (env : FetchEnv) (dp : DateParse) (q : String) (qs : List String)
       (foundRepos : List String) (modules : List ModuleRecord) (st : FetchState),
       MAX_MODULES * 3 ≤ modules.length →
       searchGo env dp (q :: qs) foundRepos modules st = (modules, st)) ∧
      (∀ (env : FetchEnv) (dp : DateParse) (q : String) (qs : List String)
         (foundRepos : List String) (modules : List ModuleRecord) (st : FetchState)
         (e : JsErr) (st1 : FetchState),
         modules.length < MAX_MODULES * 3 →
         rateLimitedFetch env (searchUrl q) st = (.thrown e, st1) →
         searchGo env dp (q :: qs) foundRepos modules st =
           searchGo env dp qs foundRepos modules st1) := by
  constructor
  · intro env dp q qs foundRepos modules st h
    rw [searchGo, if_pos h]
  · intro env dp q qs foundRepos modules st e st1 hlt hf
    rw [searchGo, if_neg (by omega), hf]

/-! State and composition lemmas for the per-candidate lookups. -/

/-- A first-attempt success returns the response and logs exactly one
request, leaving cache and sleeps untouched. -/
theorem fetchRetryGo_ok (env : FetchEnv) (url : String) (maxRetries fuel i : Nat)
    (st : FetchState) (r : HttpResp) (henv : env url (st.requestLog.count url) = r)
    (hok : respOk r = true) :
    fetchRetryGo env url maxRetries (fuel + 1) i st =
      (.ok (some r), { st with requestLog := st.requestLog ++ [url] }) := by
  rw [fetchRetryGo, henv]
  simp [hok]

/-- A `rateLimitedFetch` of an uncached URL whose responses are all `r` with
`r` ok: returns `r`, logs one request, changes nothing else. -/
theorem rateLimitedFetch_ok_first (env : FetchEnv) (url : String) (st : FetchState)
    (r : HttpResp) (hc : url ∉ st.notFoundCache) (henv : ∀ k, env url k = r)
    (hok : respOk r = true) :
    rateLimitedFetch env url st =
      (.ok (some r), { st with requestLog := st.requestLog ++ [url] }) := by
  rw [rateLimitedFetch, if_neg hc, fetchWithRetry]
  exact fetchRetryGo_ok env url 3 2 0 st r (henv _) hok

/-- The retry loop only ever appends the fetched URL to the 404 cache. -/
theorem fetchRetryGo_cache (env : FetchEnv) (url : String) (m : Nat) :
    ∀ (fuel i : Nat) (st : FetchState),
      (fetchRetryGo env url m fuel i st).2.notFoundCache = st.notFoundCache ∨
        (fetchRetryGo env url m fuel i st).2.notFoundCache = st.notFoundCache ++ [url] := by
  intro fuel
  induction fuel with
  | zero => intro i st; left; rfl
  | succ f ih =>
    intro i st
    rw [fetchRetryGo]
    cases hok : respOk (env url (st.requestLog.count url))
    · simp only [Bool.false_eq_true, if_false]
      by_cases h404 : (env url (st.requestLog.count url)).status = 404
      · simp [h404]
      · simp only [h404, ite_false]
        by_cases hlast : i = m - 1
        · simp [hlast]
        · simp only [hlast, ite_false]
          exact ih (i + 1) _
    · simp

/-- The retry loop appends only copies of the fetched URL to the request
log. -/
theorem fetchRetryGo_log (env : FetchEnv) (url : String) (m : Nat) :
    ∀ (fuel i : Nat) (st : FetchState), ∃ n,
      (fetchRetryGo env url m fuel i st).2.requestLog =
        st.requestLog ++ List.replicate n url := by
  intro fuel
  induction fuel with
  | zero => intro i st; exact ⟨0, by rw [fetchRetryGo]; simp⟩
  | succ f ih =>
    intro i st
    rw [fetchRetryGo]
    cases hok : respOk (env url (st.requestLog.count url))
    · simp only [Bool.false_eq_true, if_false]
      by_cases h404 : (env url (st.requestLog.count url)).status = 404
      · exact ⟨1, by simp [h404, List.replicate]⟩
      · simp only [h404, ite_false]
        by_cases hlast : i = m - 1
        · exact ⟨1, by simp [hlast, List.replicate]⟩
        · simp only [hlast, ite_false]
          obtain ⟨n, hn⟩ := ih (i + 1)
            { st with requestLog := st.requestLog ++ [url],
                      sleeps := st.sleeps ++ [1000 * (i + 1)] }
          refine ⟨n + 1, ?_⟩
          rw [hn]
          simp only [List.append_assoc, List.singleton_append, ← List.replicate_succ]
    · exact ⟨1, by simp [List.replicate]⟩

/-- `rateLimitedFetch` only ever appends the fetched URL to the cache. -/
theorem rateLimitedFetch_cache (env : FetchEnv) (url : String) (st : FetchState) :
    (rateLimitedFetch env url st).2.notFoundCache = st.notFoundCache ∨
      (rateLimitedFetch env url st).2.notFoundCache = st.notFoundCache ++ [url] := by
  rw [rateLimitedFetch]
  by_cases h : url ∈ st.notFoundCache
  · simp [h]
  · rw [if_neg h, fetchWithRetry]
    exact fetchRetryGo_cache env url 3 3 0 st

/-- `rateLimitedFetch` appends only copies of the fetched URL to the log. -/
theorem rateLimitedFetch_log (env : FetchEnv) (url : String) (st : FetchState) :
    ∃ n, (rateLimitedFetch env url st).2.requestLog =
      st.requestLog ++ List.replicate n url := by
  rw [rateLimitedFetch]
  by_cases h : url ∈ st.notFoundCache
  · exact ⟨0, by simp [h]⟩
  · rw [if_neg h, fetchWithRetry]
    exact fetchRetryGo_log env url 3 3 0 st

/-- Fetching one URL never changes the request count of a different URL. -/
theorem rateLimitedFetch_count_ne (env : FetchEnv) (url : String) (st : FetchState)
    (cu : String) (h : cu ≠ url) :
    ((rateLimitedFetch env url st).2.requestLog.count cu) =
      st.requestLog.count cu := by
  obtain ⟨n, hn⟩ := rateLimitedFetch_log env url st
  rw [hn, List.count_append, List.count_replicate]
  simp [Ne.symm h]

/-- Fetching one URL never puts a different URL into the 404 cache. -/
theorem rateLimitedFetch_cache_ne (env : FetchEnv) (url : String) (st : FetchState)
    (x : String) (hx : x ∉ st.notFoundCache) (hne : x ≠ url) :
    x ∉ (rateLimitedFetch env url st).2.notFoundCache := by
  rcases rateLimitedFetch_cache env url st with h | h <;> rw [h]
  · exact hx
  · intro hmem
    rcases List.mem_append.1 hmem with h1 | h1
    · exact hx h1
    · exact hne (List.mem_singleton.1 h1)

/-- `validateSilverstripeModule` leaves exactly the state of its single
composer.json fetch. -/
theorem validateSilverstripeModule_state (env : FetchEnv) (repo : Repo) (st : FetchState) :
    (validateSilverstripeModule env repo st).2 =
      (rateLimitedFetch env (composerUrl repo) st).2 := by
  unfold validateSilverstripeModule
  rcases h : rateLimitedFetch env (composerUrl repo) st with ⟨res, st1⟩
  rcases res with r | e
  · rcases r with _ | r
    · rfl
    · cases hok : respOk r
      · simp [hok]
      · rcases hcb : r.composerBody with _ | c <;> simp [hok, hcb]
  · rfl

/-- `composerRefine` leaves exactly the state of its single composer.json
fetch. -/
theorem composerRefine_state (env : FetchEnv) (repo : Repo) (nd : String × String)
    (st : FetchState) :
    (composerRefine env repo nd st).2 = (rateLimitedFetch env (composerUrl repo) st).2 := by
  unfold composerRefine
  rcases h : rateLimitedFetch env (composerUrl repo) st with ⟨res, st1⟩
  rcases res with r | e
  · rcases r with _ | r
    · rfl
    · cases hok : respOk r
      · simp [hok]
      · rcases hcb : r.composerBody with _ | c <;> simp [hok, hcb]
  · rfl

/-- `refinePublishedFromRelease` leaves exactly the state of its single
latest-release fetch. -/
theorem refinePublishedFromRelease_state (env : FetchEnv) (dp : DateParse) (repo : Repo)
    (base : Option String) (st : FetchState) :
    (refinePublishedFromRelease env dp repo base st).2 =
      (rateLimitedFetch env (releasesLatestUrl repo) st).2 := by
  unfold refinePublishedFromRelease
  rcases h : rateLimitedFetch env (releasesLatestUrl repo) st with ⟨res, st1⟩
  rcases res with r | e
  · rcases r with _ | r
    · rfl
    · cases hok : respOk r
      · simp [hok]
      · rcases hrb : r.releaseBody with _ | rel
        · simp [hok, hrb]
        · rcases hpa : jsTruthyStr rel.published_at with _ | pa
          · simp [hok, hrb, hpa]
          · by_cases hgt : jsGT (dp pa) (base.bind dp) = true <;> simp [hok, hrb, hpa, hgt]
  · rfl

/-- `getLatestVersion` touches only the latest-release URL and the tags URL
of its repo, so the request count of any other URL is unchanged. -/
theorem getLatestVersion_count (env : FetchEnv) (repo : Repo) (st : FetchState)
    (cu : String) (h1 : cu ≠ releasesLatestUrl repo) (h2 : cu ≠ tagsUrl repo) :
    ((getLatestVersion env repo st).2.requestLog.count cu) =
      st.requestLog.count cu := by
  unfold getLatestVersion
  rcases hr : rateLimitedFetch env (releasesLatestUrl repo) st with ⟨res, st1⟩
  have e1 : st1.requestLog.count cu = st.requestLog.count cu := by
    have := rateLimitedFetch_count_ne env (releasesLatestUrl repo) st cu h1
    rw [hr] at this
    exact this
  rcases res with r | e
  · rcases r with _ | r
    · simpa using e1
    · cases hok : respOk r
      · simp only [hok, Bool.false_eq_true, if_false]
        rcases ht : rateLimitedFetch env (tagsUrl repo) st1 with ⟨res2, st2⟩
        have e2 : st2.requestLog.count cu = st1.requestLog.count cu := by
          have := rateLimitedFetch_count_ne env (tagsUrl repo) st1 cu h2
          rw [ht] at this
          exact this
        rcases res2 with t | e2r
        · rcases t with _ | t
          · simpa using e2.trans e1
          · cases htok : respOk t
            · simpa [htok] using e2.trans e1
            · rcases htb : t.tagsBody with _ | tl
              · simpa [htok, htb] using e2.trans e1
              · rcases tl with _ | ⟨t1, tl⟩ <;> simpa [htok, htb] using e2.trans e1
        · simpa using e2.trans e1
      · rcases hrb : r.releaseBody with _ | rel <;> simpa [hok, hrb] using e1
  · simpa using e1

/-- The final state of `extractModuleData` is the composition of its three
lookups (definitional unfolding). -/
theorem extractModuleData_state (env : FetchEnv) (dp : DateParse) (repo : Repo)
    (st : FetchState) :
    (extractModuleData env dp repo st).2 =
      (getLatestVersion env repo
        ((refinePublishedFromRelease env dp repo (jsOrO repo.pushed_at repo.updated_at)
          ((composerRefine env repo
            (repo.full_name, jsOrStr repo.description "No description available") st).2)).2)).2 :=
  rfl

/-- The record built by `extractModuleData`, componentwise (definitional
unfolding). -/
theorem extractModuleData_val (env : FetchEnv) (dp : DateParse) (repo : Repo)
    (st : FetchState) :
    (extractModuleData env dp repo st).1 =
      some { name := (composerRefine env repo
               (repo.full_name, jsOrStr repo.description "No description available") st).1.1,
             description := jsTrim (composerRefine env repo
               (repo.full_name, jsOrStr repo.description "No description available") st).1.2,
             url := repo.html_url,
             published := jsValOfOpt (refinePublishedFromRelease env dp repo
               (jsOrO repo.pushed_at repo.updated_at)
               ((composerRefine env repo
                 (repo.full_name, jsOrStr repo.description "No description available") st).2)).1,
             version := (getLatestVersion env repo
               ((refinePublishedFromRelease env dp repo (jsOrO repo.pushed_at repo.updated_at)
                 ((composerRefine env repo
                   (repo.full_name, jsOrStr repo.description "No description available")
                   st).2)).2)).1 } :=
  rfl

/-- C6 (amended): a URL recorded in the 404 cache is never requested again
in the run — `rateLimitedFetch` throws the cached error and leaves the state
(hence the request log) unchanged; but a URL whose fetch succeeded is not
cached, and a repeated identical URL is then fetched again: validating and
then extracting one candidate requests its composer.json URL over the
network exactly twice. -/
theorem notFoundCache_dedupe_and_composer_double_fetch :
    (∀ (env : FetchEnv) (url : String) (st : FetchState), url ∈ st.notFoundCache →
       rateLimitedFetch env url st = (.thrown ⟨404, true⟩, st)) ∧
      (∀ (env : FetchEnv) (dp : DateParse) (repo : Repo) (st : FetchState) (r : HttpResp),
         (∀ k, env (composerUrl repo) k = r) → respOk r = true →
         composerUrl repo ∉ st.notFoundCache →
         composerUrl repo ≠ releasesLatestUrl repo →
         composerUrl repo ≠ tagsUrl repo →
         ((extractModuleData env dp repo
             ((validateSilverstripeModule env repo st).2)).2.requestLog.count
           (composerUrl repo)) =
           st.requestLog.count (composerUrl repo) + 2) := by
  constructor
  · intro env url st hmem
    rw [rateLimitedFetch, if_pos hmem]
  · intro env dp repo st r henv hok hc hne1 hne2
    have hval : (validateSilverstripeModule env repo st).2 =
        { st with requestLog := st.requestLog ++ [composerUrl repo] } := by
      rw [validateSilverstripeModule_state,
        rateLimitedFetch_ok_first env (composerUrl repo) st r hc henv hok]
    rw [hval, extractModuleData_state]
    have hcr : (composerRefine env repo
        (repo.full_name, jsOrStr repo.description "No description available")
        { st with requestLog := st.requestLog ++ [composerUrl repo] }).2 =
        { st with requestLog := st.requestLog ++ [composerUrl repo] ++ [composerUrl repo] } := by
      rw [composerRefine_state,
        rateLimitedFetch_ok_first env (composerUrl repo)
          { st with requestLog := st.requestLog ++ [composerUrl repo] } r hc henv hok]
    rw [hcr, getLatestVersion_count env repo _ _ hne1 hne2,
      refinePublishedFromRelease_state,
      rateLimitedFetch_count_ne env (releasesLatestUrl repo) _ _ hne1]
    simp [List.count_append]

/-- Candidate repo for the double-fetch run. -/
def repo6 : Repo := ⟨"acme/widget", none, "", none, none, none⟩

/-- Environment where the composer.json of `repo6` succeeds on every request
and everything else is a 404. -/
def env6 : FetchEnv := fun url _ =>
  if url = composerUrl repo6 then
    { mkResp 200 with
      composerBody := some ⟨some "silverstripe-vendormodule", none, some "acme/widget", none⟩ }
  else mkResp 404

/-- Counterexample to C6 as stated: during one candidate's validation
followed by extraction, the identical composer.json URL is requested over
the network twice in the same run (the 404 cache only dedupes failed URLs,
not successful ones). -/
theorem composer_url_fetched_twice :
    ((extractModuleData env6 dpNone repo6
        ((validateSilverstripeModule env6 repo6 st0).2)).2.requestLog.count
      (composerUrl repo6)) = 2 := by decide

/-- Witness for `notFoundCache_dedupe_and_composer_double_fetch` at concrete
inputs. -/
theorem notFoundCache_dedupe_witness :
    rateLimitedFetch env404c "u" ⟨["u"], ["u"], []⟩ =
        (.thrown ⟨404, true⟩, ⟨["u"], ["u"], []⟩) ∧
      ((extractModuleData env6 dpNone repo6
          ((validateSilverstripeModule env6 repo6 st0).2)).2.requestLog.count
        (composerUrl repo6)) = st0.requestLog.count (composerUrl repo6) + 2 :=
  ⟨notFoundCache_dedupe_and_composer_double_fetch.1 env404c "u" ⟨["u"], ["u"], []⟩ (by simp),
   notFoundCache_dedupe_and_composer_double_fetch.2 env6 dpNone repo6 st0
     { mkResp 200 with
       composerBody := some ⟨some "silverstripe-vendormodule", none, some "acme/widget", none⟩ }
     (fun k => by simp [env6]) (by decide) (by decide) (by decide) (by decide)⟩

/-- With no base push/update date, the release refinement never produces a
date: `releaseDate > new Date(undefined)` is a NaN comparison, hence false,
so the undefined base is kept. -/
theorem refinePublished_none (env : FetchEnv) (dp : DateParse) (repo : Repo)
    (st : FetchState) :
    (refinePublishedFromRelease env dp repo none st).1 = none := by
  unfold refinePublishedFromRelease
  rcases h : rateLimitedFetch env (releasesLatestUrl repo) st with ⟨res, st1⟩
  rcases res with r | e
  · rcases r with _ | r
    · rfl
    · cases hok : respOk r
      · simp [hok]
      · rcases hrb : r.releaseBody with _ | rel
        · simp [hok, hrb]
        · rcases hpa : jsTruthyStr rel.published_at with _ | pa
          · simp [hok, hrb, hpa]
          · rcases hdp : dp pa with _ | x <;> simp [hok, hrb, hpa, jsGT, hdp]
  · rfl

/-- With an available release date and an uncached release URL, the release
refinement picks the release date exactly when it is strictly more recent
than the base date. -/
theorem refinePublished_ok (env : FetchEnv) (dp : DateParse) (repo : Repo)
    (base : Option String) (st : FetchState) (r : HttpResp) (rel : Release) (pa : String)
    (hc : releasesLatestUrl repo ∉ st.notFoundCache)
    (henv : ∀ k, env (releasesLatestUrl repo) k = r) (hok : respOk r = true)
    (hrb : r.releaseBody = some rel) (hpa : jsTruthyStr rel.published_at = some pa) :
    refinePublishedFromRelease env dp repo base st =
      ((if jsGT (dp pa) (base.bind dp) then some pa else base),
       { st with requestLog := st.requestLog ++ [releasesLatestUrl repo] }) := by
  unfold refinePublishedFromRelease
  rw [rateLimitedFetch_ok_first env (releasesLatestUrl repo) st r hc henv hok]
  dsimp only
  rw [if_pos hok, hrb]
  dsimp only
  rw [hpa]
  dsimp only
  by_cases hgt : jsGT (dp pa) (base.bind dp) = true
  · rw [if_pos hgt, if_pos hgt]
  · rw [if_neg hgt, if_neg hgt]

/-- C8 (amended): `extractModuleData` derives `published` from
`pushed_at || updated_at`, replaced by the latest release timestamp when
that is strictly more recent; it never reads the repository creation date —
the result is invariant under `created_at`, and when neither push nor update
timestamp is present `published` is left undefined (not the creation
date). -/
theorem extract_published_derivation :
    (∀ (env : FetchEnv) (dp : DateParse) (a : String) (b : Option String) (h : String)
       (p u c c2 : Option String) (st : FetchState),
       extractModuleData env dp ⟨a, b, h, p, u, c⟩ st =
         extractModuleData env dp ⟨a, b, h, p, u, c2⟩ st) ∧
      (∀ (env : FetchEnv) (dp : DateParse) (repo : Repo) (st : FetchState),
        repo.pushed_at = none → repo.updated_at = none →
        ((extractModuleData env dp repo st).1.map (fun m => m.published)) =
          some JsVal.undefined) ∧
      (∀ (env : FetchEnv) (dp : DateParse) (repo : Repo) (st : FetchState) (r : HttpResp)
         (rel : Release) (pa pd : String),
         (∀ k, env (releasesLatestUrl repo) k = r) → respOk r = true →
         r.releaseBody = some rel → jsTruthyStr rel.published_at = some pa →
         jsOrO repo.pushed_at repo.updated_at = some pd →
         releasesLatestUrl repo ∉ st.notFoundCache →
         composerUrl repo ≠ releasesLatestUrl repo →
         ((extractModuleData env dp repo st).1.map (fun m => m.published)) =
           some (JsVal.str (if jsGT (dp pa) (dp pd) then pa else pd))) := by
  refine ⟨fun env dp a b h p u c c2 st => rfl, ?_, ?_⟩
  · intro env dp repo st hp hu
    rw [extractModuleData_val]
    simp only [Option.map_some']
    rw [hp, hu]
    show some (jsValOfOpt (refinePublishedFromRelease env dp repo (jsOrO none none) _).1) = _
    rw [show jsOrO (none : Option String) none = none from rfl, refinePublished_none]
    rfl
  · intro env dp repo st r rel pa pd henv hok hrb hpa hbase hcache hne
    rw [extractModuleData_val]
    simp only [Option.map_some']
    rw [hbase]
    have hc1 : releasesLatestUrl repo ∉
        (composerRefine env repo
          (repo.full_name, jsOrStr repo.description "No description available")
          st).2.notFoundCache := by
      rw [composerRefine_state]
      exact rateLimitedFetch_cache_ne env (composerUrl repo) st _ hcache (Ne.symm hne)
    rw [refinePublished_ok env dp repo (some pd) _ r rel pa hc1 henv hok hrb hpa]
    show some (jsValOfOpt (if jsGT (dp pa) ((some pd).bind dp) then some pa else some pd)) = _
    by_cases hgt : jsGT (dp pa) (dp pd) = true
    · simp only [Option.bind, hgt, if_true]
      rfl
    · simp only [Option.bind, hgt, if_false]
      rfl

/-- Repo with a creation date but no push or update timestamp. -/
def repo8 : Repo := ⟨"acme/older", none, "", none, none, some "2021-02-03T04:05:06Z"⟩

/-- Counterexample to C8 as stated: a repository with no release and no
push/update data but a known creation date yields `published = undefined`,
not the creation date — the script has no creation-date fallback. -/
theorem extract_no_creation_date_fallback :
    ((extractModuleData env404c dpNone repo8 st0).1.map (fun m => m.published)) =
        some JsVal.undefined ∧
      repo8.created_at = some "2021-02-03T04:05:06Z" :=
  ⟨by decide, rfl⟩

/-- Release used by the C8 witness. -/
def rel8 : Release := ⟨some "2024-05-06T07:08:09Z", some "v2", none⟩

/-- Repo with a push date, for the C8 witness. -/
def repo8b : Repo := ⟨"acme/two", none, "", some "2024-01-01T00:00:00Z", none, none⟩

/-- Environment where only the latest-release endpoint of `repo8b`
succeeds. -/
def env8 : FetchEnv := fun url _ =>
  if url = releasesLatestUrl repo8b then { mkResp 200 with releaseBody := some rel8 }
  else mkResp 404

/-- Date parser for the C8 witness: release newer than push. -/
def dp8 : DateParse := fun s =>
  if s = "2024-05-06T07:08:09Z" then some 500
  else if s = "2024-01-01T00:00:00Z" then some 100
  else none

/-- Witness for `extract_published_derivation` at concrete inputs. -/
theorem extract_published_derivation_witness :
    extractModuleData env404c dpNone ⟨"acme/w", none, "", none, none, some "2020-01-01"⟩ st0 =
        extractModuleData env404c dpNone ⟨"acme/w", none, "", none, none, none⟩ st0 ∧
      ((extractModuleData env404c dpNone repo8 st0).1.map (fun m => m.published)) =
        some JsVal.undefined ∧
      ((extractModuleData env8 dp8 repo8b st0).1.map (fun m => m.published)) =
        some (JsVal.str (if jsGT (dp8 "2024-05-06T07:08:09Z") (dp8 "2024-01-01T00:00:00Z")
          then "2024-05-06T07:08:09Z" else "2024-01-01T00:00:00Z")) :=
  ⟨extract_published_derivation.1 env404c dpNone "acme/w" none "" none none
      (some "2020-01-01") none st0,
   extract_published_derivation.2.1 env404c dpNone repo8 st0 rfl rfl,
   extract_published_derivation.2.2 env8 dp8 repo8b st0
     { mkResp 200 with releaseBody := some rel8 } rel8
     "2024-05-06T07:08:09Z" "2024-01-01T00:00:00Z"
     (fun k => by simp [env8]) (by decide) rfl (by decide) (by decide) (by simp [st0])
     (by decide)⟩

/-- Packagist search hit for the C9 run. -/
def pkg9 : PackagistPkg := ⟨"acme/widget", some "A widget.", none⟩

/-- Packagist detail body for the C9 run. -/
def detail9 : PackagistDetail := ⟨"1.2.3", [("1.2.3", ⟨"2025-01-02T03:04:05+00:00", none⟩)]⟩

/-- Environment where only the Packagist package detail of `acme/widget`
succeeds. -/
def env9 : FetchEnv := fun url _ =>
  if url = packagistPackageUrl "acme/widget" then { mkResp 200 with packagistBody := some detail9 }
  else mkResp 404

/-- Date parser for the C9 run. -/
def dp9 : DateParse := fun s =>
  if s = "2025-01-02T03:04:05+00:00" then some 1735787045000 else none

/-- C9 at the failing input: the record built by the Packagist fallback path
stores `published` as a Date object (`JsVal.date`), not an ISO-8601 string
(`JsVal.str`), although the spec table and the top-3 logging in
`fetchModules()` (which calls `published.split`) require a string. -/
theorem extractPackagist_published_is_date_object :
    (extractPackagistModuleData env9 dp9 pkg9 st0).1 =
      some ⟨"acme/widget", "A widget.", "https://packagist.org/packages/acme/widget",
            JsVal.date (some 1735787045000), some "1.2.3"⟩ := by decide

/-! Concrete environments and inputs used by the witness theorems. -/

/-- Twenty distinct repo short names for the size witness. -/
def witnessNames : List String :=
  ["m0", "m1", "m2", "m3", "m4", "m5", "m6", "m7", "m8", "m9",
   "m10", "m11", "m12", "m13", "m14", "m15", "m16", "m17", "m18", "m19"]

/-- Twenty distinct Silverstripe-named repos for the size witness. -/
def witnessRepos : List Repo :=
  witnessNames.map (fun n =>
    { full_name := "silverstripe/" ++ n, description := none,
      html_url := "", pushed_at := some "2024-01-01T00:00:00Z", updated_at := none,
      created_at := none })

/-- Environment where the first search query returns the twenty witness
repos and every other request is a 404. -/
def envC1 : FetchEnv := fun url _ =>
  if url = searchUrl "silverstripe language:PHP pushed:>2024-01-01" then
    { mkResp 200 with items := some witnessRepos }
  else mkResp 404

set_option maxRecDepth 40000

/-- Witness for the conditional part of `fetchModules_size`: a run that
discovers twenty distinct candidates returns exactly twenty records. -/
theorem fetchModules_size_witness :
    MAX_MODULES ≤ (fetchModulesMerged envC1 dpNone st0).1.length ∧
      (fetchModules envC1 dpNone st0).1.length = MAX_MODULES := by
  have h : MAX_MODULES ≤ (fetchModulesMerged envC1 dpNone st0).1.length := by decide
  exact ⟨h, (fetchModules_size envC1 dpNone st0).2 h⟩

/-- Primary record for the deduplication witness. -/
def modA : ModuleRecord := ⟨"acme/a", "primary", "", .undefined, none⟩

/-- Secondary record sharing the primary name, to be dropped. -/
def modA2 : ModuleRecord := ⟨"acme/a", "secondary duplicate", "", .undefined, none⟩

/-- Secondary record with a fresh name, to be kept. -/
def modB : ModuleRecord := ⟨"acme/b", "secondary", "", .undefined, none⟩

/-- Witness for `mergeModules_nodup_names` at concrete lists with a
name collision between the primary and secondary sides. -/
theorem mergeModules_nodup_names_witness :
    (([modA].map (fun m => m.name)).Nodup ∧
        ([modA2, modB].map (fun m => m.name)).Nodup) ∧
      ((((sortModulesByDate dpNone (mergeModules [modA] [modA2, modB])).take
          MAX_MODULES).map (fun m => m.name)).Nodup) :=
  ⟨⟨by decide, by decide⟩,
    (mergeModules_nodup_names dpNone [modA] [modA2, modB] (by decide) (by decide)).2⟩

/-- Witness for `searchGo_ceiling_and_failure_isolation` at concrete
inputs: a loop entered with sixty accumulated modules issues no query, and a
run whose first query fails continues with the remaining queries. -/
theorem searchGo_ceiling_and_failure_isolation_witness :
    (MAX_MODULES * 3 ≤ (List.replicate 60 modA).length ∧
        searchGo env404c dpNone ["x"] [] (List.replicate 60 modA) st0 =
          (List.replicate 60 modA, st0)) ∧
      (rateLimitedFetch env404c (searchUrl "y") st0 =
          (.thrown ⟨404, false⟩, ⟨[searchUrl "y"], [searchUrl "y"], []⟩) ∧
        searchGo env404c dpNone ["y"] [] [] st0 =
          searchGo env404c dpNone [] [] [] ⟨[searchUrl "y"], [searchUrl "y"], []⟩) := by
  have hrl : rateLimitedFetch env404c (searchUrl "y") st0 =
      (.thrown ⟨404, false⟩, ⟨[searchUrl "y"], [searchUrl "y"], []⟩) := by decide
  refine ⟨⟨by decide, searchGo_ceiling_and_failure_isolation.1 env404c dpNone "x" [] []
      (List.replicate 60 modA) st0 (by decide)⟩,
    hrl, searchGo_ceiling_and_failure_isolation.2 env404c dpNone "y" [] [] [] st0
      ⟨404, false⟩ ⟨[searchUrl "y"], [searchUrl "y"], []⟩ (by decide) hrl⟩

end Mods
